import Mathlib

/-!
Shallow embedding of `notify_canada_interns.py` (repository `InternshipFinder`).

The script fetches a README, locates the "Software Engineering Internship Roles"
section, parses its table (Markdown pipe table or embedded HTML table), filters
rows for Canadian location and age `0d`, resolves application links (with
sub-row `↳` inheritance), deduplicates against a persisted `notified.json`
store, and sends one webhook notification per new qualifying row.

Strings are modelled as `List Char` (`Chars`).  Library routines used by the
script (Python's `html.unescape`, `re` patterns, BeautifulSoup's anchor and
text extraction) are embedded as executable scanners; the doc comment of each
such definition states exactly the fragment of library behaviour it models.
The network is modelled by a send oracle `sendOk : Notification → Bool`
(success or failure of one webhook POST is extern behaviour).
-/

abbrev Chars := List Char

def cs (s : String) : Chars := s.data

/-- Python `str.lower()` (ASCII fragment, via `Char.toLower`). -/
def lowerChars (l : Chars) : Chars := l.map Char.toLower

/-- Python `str.strip()`: drop whitespace at both ends. -/
def trimChars (l : Chars) : Chars :=
  ((l.dropWhile Char.isWhitespace).reverse.dropWhile Char.isWhitespace).reverse

/-- Python `str.rstrip()`: drop whitespace at the right end. -/
def rstripChars (l : Chars) : Chars :=
  (l.reverse.dropWhile Char.isWhitespace).reverse

/-- Python's `needle in hay` substring test. -/
def hasSub : Chars → Chars → Bool
  | [], needle => needle.isEmpty
  | h :: t, needle => needle.isPrefixOf (h :: t) || hasSub t needle

/-- Models Python `html.unescape` on the entity vocabulary the pipeline can
meet (`&amp;` `&lt;` `&gt;` `&quot;` `&#39;`), as a single left-to-right pass
that resumes *after* each replacement — exactly `html.unescape`'s
`re.sub` behaviour, so `&amp;amp;` decodes to `&amp;`, not to `&`. -/
def unescapeHtml : Chars → Chars
  | [] => []
  | c :: rest =>
    if c = '&' then
      match rest with
      | 'a' :: 'm' :: 'p' :: ';' :: r => '&' :: unescapeHtml r
      | 'l' :: 't' :: ';' :: r => '<' :: unescapeHtml r
      | 'g' :: 't' :: ';' :: r => '>' :: unescapeHtml r
      | 'q' :: 'u' :: 'o' :: 't' :: ';' :: r => '"' :: unescapeHtml r
      | '#' :: '3' :: '9' :: ';' :: r => '\'' :: unescapeHtml r
      | r => '&' :: unescapeHtml r
    else c :: unescapeHtml rest

/-- Drops `<...>` tag spans (helper for `strip_html_tags`).  The Bool flag is
true while inside a `<...>` span. -/
def removeTagsAux : Bool → Chars → Chars
  | _, [] => []
  | true, c :: rest => if c = '>' then removeTagsAux false rest else removeTagsAux true rest
  | false, c :: rest => if c = '<' then removeTagsAux true rest else c :: removeTagsAux false rest

def removeTags (l : Chars) : Chars := removeTagsAux false l

/-- `strip_html_tags` (src lines 110-113): models
`BeautifulSoup(text, "lxml").get_text(strip=True)` as: remove tag spans,
decode HTML entities (lxml decodes entities in text nodes), trim outer
whitespace.  (Interior whitespace adjacent to tag boundaries, which
`get_text(strip=True)` would also strip, is not modelled; no claim below
depends on that case.) -/
def strip_html_tags (l : Chars) : Chars := trimChars (unescapeHtml (removeTags l))

/-- `normalize_url` (src lines 160-164): unescape HTML entities, strip whitespace. -/
def normalize_url (url : Chars) : Chars :=
  if url.isEmpty then [] else trimChars (unescapeHtml url)

/-- `location_is_canada` (src lines 166-170). -/
def location_is_canada (location_text : Chars) : Bool :=
  if location_text.isEmpty then false
  else hasSub (lowerChars (strip_html_tags location_text)) (cs "canada")

/-- Python regex `\w` (ASCII fragment). -/
def isWordChar (c : Char) : Bool := c.isAlphanum || c = '_'

/-- Word boundary `\b` after a match: end of input or a non-word char. -/
def boundaryAfter : Chars → Bool
  | [] => true
  | c :: _ => !isWordChar c

/-- After a `0`: `\s*` then `d\b`, `day\b` or `days\b`
(the unit part of `\b0\s*d\b|\b0\s*days?\b`). -/
def ageUnitAt (l : Chars) : Bool :=
  match l.dropWhile Char.isWhitespace with
  | 'd' :: 'a' :: 'y' :: 's' :: t => boundaryAfter t
  | 'd' :: 'a' :: 'y' :: t => boundaryAfter t
  | 'd' :: t => boundaryAfter t
  | _ => false

/-- Scanner for `re.search(r"\b0\s*d\b|\b0\s*days?\b", ·)` (src line 282);
the Bool argument records whether the previous char was a word char
(for the `\b` before the `0`). -/
def ageSearchAux : Bool → Chars → Bool
  | _, [] => false
  | prevW, '0' :: rest => (!prevW && ageUnitAt rest) || ageSearchAux true rest
  | _, c :: rest => ageSearchAux (isWordChar c) rest

/-- `re.search(r"\b0\s*d\b|\b0\s*days?\b", s)` succeeds on `s`. -/
def ageMatches (l : Chars) : Bool := ageSearchAux false l

/-- The age filter of src line 282: `not (not age or not re.search(pat, age.lower()))`. -/
def ageOk (age : Chars) : Bool := !age.isEmpty && ageMatches (lowerChars age)

/-- Parse `https?://X+` at the head of `l` (`X` = chars satisfying `allowed`,
taken greedily); returns the captured URL and the remainder.  The greedy run
never backtracks into a closing delimiter because `allowed` excludes it. -/
def urlAfter (allowed : Char → Bool) (l : Chars) : Option (Chars × Chars) :=
  if (cs "https://").isPrefixOf l then
    let rest := l.drop 8
    let run := rest.takeWhile allowed
    if run.isEmpty then none else some (cs "https://" ++ run, rest.dropWhile allowed)
  else if (cs "http://").isPrefixOf l then
    let rest := l.drop 7
    let run := rest.takeWhile allowed
    if run.isEmpty then none else some (cs "http://" ++ run, rest.dropWhile allowed)
  else none

/-- Char class `[^\s)]` of the Markdown-link regex. -/
def mdAllowed (c : Char) : Bool := !(c.isWhitespace || c = ')')

/-- After a `]`: try `\((https?://[^\s)]+)\)` — an opening parenthesis, a URL
run, a closing parenthesis. -/
def mdParen : Chars → Option Chars
  | '(' :: rest2 =>
    (match urlAfter mdAllowed rest2 with
     | some (u, ')' :: _) => some u
     | _ => none)
  | _ => none

/-- After a `[`: lazy scan `.*?\]\((https?://[^\s)]+)\)` — `.` does not match
newline; on failure at one `]` the lazy star consumes it and the scan goes on. -/
def mdAfterBracket : Chars → Option Chars
  | [] => none
  | c :: rest =>
    if c = '\n' then none
    else if c = ']' then
      match mdParen rest with
      | some u => some u
      | none => mdAfterBracket rest
    else mdAfterBracket rest

/-- Scanner for `re.search(r'\[.*?\]\((https?://[^\s)]+)\)', ·)` (src line 144):
leftmost `[` whose bracket body admits a full match. -/
def findMarkdownUrl : Chars → Option Chars
  | [] => none
  | c :: rest =>
    if c = '[' then
      match mdAfterBracket rest with
      | some u => some u
      | none => findMarkdownUrl rest
    else findMarkdownUrl rest

def hrefQuote (c : Char) : Bool := c = '"' || c = '\''

/-- After `href=`: a quote, `https?://[^"']+`, a closing quote
(regex of src line 149). -/
def hrefAt : Chars → Option Chars
  | [] => none
  | q :: rest =>
    if hrefQuote q then
      match urlAfter (fun c => !hrefQuote c) rest with
      | some (u, c :: _) => if hrefQuote c then some u else none
      | _ => none
    else none

/-- Scanner for `re.search(r'href=["\x27](https?://[^"\x27]+)["\x27]', ·)`
(src line 149): leftmost `href=` admitting a full match. -/
def findHrefUrl : Chars → Option Chars
  | [] => none
  | c :: rest =>
    if (cs "href=").isPrefixOf (c :: rest) then
      match hrefAt ((c :: rest).drop 5) with
      | some u => some u
      | none => findHrefUrl rest
    else findHrefUrl rest

/-- Char class `[^\s\)\]]` of the bare-URL regex. -/
def bareAllowed (c : Char) : Bool := !(c.isWhitespace || c = ')' || c = ']')

/-- Scanner for `re.search(r"(https?://[^\s\)\]]+)", ·)` (src line 154). -/
def findBareUrl : Chars → Option Chars
  | [] => none
  | c :: rest =>
    match urlAfter bareAllowed (c :: rest) with
    | some (u, _) => some u
    | none => findBareUrl rest

/-- Find a quoted `href=` attribute value inside a tag body. -/
def hrefInTag : Chars → Option Chars
  | [] => none
  | c :: rest =>
    if (cs "href=").isPrefixOf (c :: rest) then
      match (c :: rest).drop 5 with
      | q :: v => if hrefQuote q then some (v.takeWhile (· ≠ q)) else none
      | [] => none
    else hrefInTag rest

/-- Scanner behind `findAnchorHrefs`: first argument is `some acc` (reversed
body chars so far) while inside an `<a ...>` tag head, `none` outside.  An
`<a` followed by whitespace opens a tag body, which runs to the next `>`. -/
def findAnchorAux : Option Chars → Chars → List Chars
  | some _, [] => []
  | some acc, c :: rest =>
    if c = '>' then
      match hrefInTag acc.reverse with
      | some v => unescapeHtml v :: findAnchorAux none rest
      | none => findAnchorAux none rest
    else findAnchorAux (some (c :: acc)) rest
  | none, [] => []
  | none, c :: rest =>
    if c = '<' then
      match rest with
      | 'a' :: c2 :: rest2 =>
        if c2.isWhitespace then findAnchorAux (some [c2]) rest2
        else findAnchorAux none ('a' :: c2 :: rest2)
      | r => findAnchorAux none r
    else findAnchorAux none rest

/-- Models `BeautifulSoup(cell, "lxml").find_all("a", href=True)` followed by
`a.get("href")`: collects, in document order, the quoted `href` value of every
`<a ...>` element, HTML-entity-decoded (lxml decodes entities in attribute
values, which is why anchor hrefs carry `&` rather than `&amp;`). -/
def findAnchorHrefs (l : Chars) : List Chars := findAnchorAux none l

/-- `href.lower().startswith("http")` with the truthiness guard of src line 133/138. -/
def absHttp (h : Chars) : Bool := !h.isEmpty && (cs "http").isPrefixOf (lowerChars h)

/-- The anchor-selection loops of `extract_link_from_cell` (src lines 127-139):
prefer an absolute anchor href not containing `simplify.jobs/p/`, else the
first absolute anchor href; hrefs are `.strip()`ped then `normalize_url`ed. -/
def anchorPick (cell : Chars) : Option Chars :=
  let anchors := (findAnchorHrefs cell).map trimChars
  match anchors.find? (fun h => absHttp h && !hasSub h (cs "simplify.jobs/p/")) with
  | some h => some (normalize_url h)
  | none =>
    match anchors.find? absHttp with
    | some h => some (normalize_url h)
    | none => none

/-- `extract_link_from_cell` (src lines 115-158): empty cell → `None`;
then BeautifulSoup anchors, then the Markdown-link regex, then the `href=`
regex (with `html.unescape`), then the bare-URL regex. -/
def extract_link_from_cell (cell : Chars) : Option Chars :=
  if cell.isEmpty then none
  else
    match anchorPick cell with
    | some u => some u
    | none =>
      match findMarkdownUrl cell with
      | some u => some (normalize_url u)
      | none =>
        match findHrefUrl cell with
        | some u => some (normalize_url (unescapeHtml u))
        | none =>
          match findBareUrl cell with
          | some u => some (normalize_url u)
          | none => none

/-! ### Rows, loop state, and the main row loop (src lines 204-216, 266-333) -/

/-- One parsed table row (original cell strings), restricted to the five
columns the row loop reads after header resolution (src lines 261-265):
company, role, location, age, application.  The row invariant of
`parse_markdown_table` / `parse_html_table` (missing cells padded with the
empty string) makes each field total. -/
structure RawRow where
  company : Chars
  role : Chars
  location : Chars
  age : Chars
  application : Chars
deriving DecidableEq, Repr

/-- A normalized row as produced by `build_normalized_rows` (src lines
204-216): for each column both the markup-stripped plain form (`item[k]`)
and the raw form (`item[k + "_raw"]`).  (Both branches of the `if` at src
line 209 store the same pair.) -/
structure NRow where
  company : Chars
  companyRaw : Chars
  role : Chars
  roleRaw : Chars
  location : Chars
  locationRaw : Chars
  age : Chars
  ageRaw : Chars
  application : Chars
  applicationRaw : Chars
deriving DecidableEq, Repr

/-- `build_normalized_rows` on one row (src lines 206-215). -/
def build_normalized_row (r : RawRow) : NRow :=
  { company := strip_html_tags r.company, companyRaw := r.company
    role := strip_html_tags r.role, roleRaw := r.role
    location := strip_html_tags r.location, locationRaw := r.location
    age := strip_html_tags r.age, ageRaw := r.age
    application := strip_html_tags r.application, applicationRaw := r.application }

/-- `build_normalized_rows` (src lines 204-216). -/
def build_normalized_rows (rows : List RawRow) : List NRow :=
  rows.map build_normalized_row

/-- The carry state threaded across the row loop:
`last_valid_link` and `previous_company` (src lines 270-271). -/
structure Carry where
  lastValidLink : Option Chars
  previousCompany : Option Chars
deriving DecidableEq, Repr

/-- One Discord embed as built at src lines 319-326 plus, as bookkeeping, the
dedup key of the row that produced it (`key` is not part of the payload). -/
structure Notification where
  title : Chars
  description : Chars
  url : Option Chars
  company : Chars
  role : Chars
  location : Chars
  age : Chars
  key : Chars
deriving DecidableEq, Repr

/-- The whole mutable state of `main`'s loop: the carry pair, the in-memory
notified set (as a list, membership-relevant only), `newly_notified`, and —
observables for the claims — the successfully sent notifications in order,
and the notifications whose send failed (the logged errors of src line 333). -/
structure LoopState where
  carry : Carry
  notified : List Chars
  newlyNotified : List Chars
  sent : List Notification
  failed : List Notification
deriving DecidableEq, Repr

/-- `strip_html_tags(company_text_raw).strip()` as at src lines 292, 296, 306, 317. -/
def sCompany (item : NRow) : Chars := trimChars (strip_html_tags item.company)

/-- The filter of src lines 277-283: location must say Canada, age must match
the zero-day regex (both `continue` before any state update). -/
def passFilters (item : NRow) : Bool :=
  location_is_canada item.location && ageOk item.age

/-- `current_link` (src lines 285-288): extract from the raw application cell
first, falling back to the plain-text application cell. -/
def rowOwnLink (item : NRow) : Option Chars :=
  (extract_link_from_cell item.applicationRaw).orElse
    (fun _ => extract_link_from_cell item.application)

/-- The carry update of src lines 290-297 (only reached when the filters
passed): a main row (nonempty company, not `↳`) updates `previous_company`,
and also `last_valid_link` when it has its own link. -/
def stepCarry (item : NRow) (c : Carry) : Carry :=
  let cur := rowOwnLink item
  let isMain := !item.company.isEmpty && sCompany item ≠ cs "↳"
  { previousCompany := if isMain then some (sCompany item) else c.previousCompany
    lastValidLink := if isMain && cur.isSome then cur else c.lastValidLink }

/-- `stepCarry` guarded by the filters (rows failing the filters `continue`
at src lines 279/283 before touching the carry). -/
def carryAfter (item : NRow) (c : Carry) : Carry :=
  if passFilters item then stepCarry item c else c

/-- Python truthiness of `previous_company` at src lines 306/317. -/
def prevTruthy (c : Carry) : Bool :=
  match c.previousCompany with
  | some p => !p.isEmpty
  | none => false

/-- `link = current_link or last_valid_link` (src line 300), with `c'` the
already-updated carry.  (When `current_link` is `some`, `last_valid_link`'s
update is `current_link` itself, so using the updated carry is exact.) -/
def rowLink (c' : Carry) (item : NRow) : Option Chars :=
  (rowOwnLink item).orElse (fun _ => c'.lastValidLink)

/-- The dedup key (src lines 302-309): the normalized link if any, else
`comp|role|location` with `previous_company` substituted for `↳`. -/
def rowKey (c' : Carry) (item : NRow) : Chars :=
  match rowLink c' item with
  | some l => normalize_url l
  | none =>
    let comp :=
      if sCompany item = cs "↳" && prevTruthy c' then c'.previousCompany.getD []
      else sCompany item
    comp ++ '|' :: trimChars item.role ++ '|' :: trimChars (strip_html_tags item.location)

/-- The display company (src line 317): inherited for `↳` sub-rows. -/
def rowCompany (c' : Carry) (item : NRow) : Chars :=
  if sCompany item = cs "↳" && prevTruthy c' then c'.previousCompany.getD []
  else strip_html_tags item.company

def emDash : Chars := cs "—"

/-- The notification built at src lines 317-326 for a row that reached the
send (fields fall back to an em-dash, the title company to "Unknown"). -/
def rowNotif (c' : Carry) (item : NRow) : Notification :=
  let link := rowLink c' item
  let company := rowCompany c' item
  let role := strip_html_tags item.role
  let loc := strip_html_tags item.location
  { title := cs "New Canada Software Engineering Intern — " ++
      (if company.isEmpty then cs "Unknown" else company)
    description :=
      match link with
      | some l => cs "[Click to apply](" ++ l ++ cs ")"
      | none => cs "Application link not found."
    url := link
    company := if company.isEmpty then emDash else company
    role := if role.isEmpty then emDash else role
    location := if loc.isEmpty then emDash else loc
    age := if item.age.isEmpty then emDash else item.age
    key := rowKey c' item }

/-- One iteration of `main`'s row loop (src lines 273-333).  `sendOk` is the
oracle for `send_discord_webhook` (true = the POST succeeded, false = it
raised).  On success the key joins `notified` and `newly_notified` and the
notification is recorded in `sent`; on failure only `failed` grows (the
logged error) and the loop continues. -/
def processRow (sendOk : Notification → Bool) (st : LoopState) (item : NRow) : LoopState :=
  if passFilters item then
    let c' := stepCarry item st.carry
    let key := rowKey c' item
    if st.notified.contains key then
      { st with carry := c' }
    else
      let n := rowNotif c' item
      if sendOk n then
        { carry := c', notified := st.notified ++ [key],
          newlyNotified := st.newlyNotified ++ [key],
          sent := st.sent ++ [n], failed := st.failed }
      else
        { st with carry := c', failed := st.failed ++ [n] }
  else st

/-- The row loop folded over all normalized rows (src line 273). -/
def runRows (sendOk : Notification → Bool) (st : LoopState) (items : List NRow) : LoopState :=
  items.foldl (processRow sendOk) st

/-- Loop state at entry of the loop (src lines 267-271). -/
def initState (notified0 : List Chars) : LoopState :=
  { carry := { lastValidLink := none, previousCompany := none },
    notified := notified0, newlyNotified := [], sent := [], failed := [] }

/-- The full row pipeline of `main` from parsed raw rows (src lines 255-333). -/
def runPipeline (sendOk : Notification → Bool) (notified0 : List Chars)
    (rows : List RawRow) : LoopState :=
  runRows sendOk (initState notified0) (build_normalized_rows rows)

/-- The oracle for a run in which every webhook send succeeds. -/
def allOk : Notification → Bool := fun _ => true

/-! ### The persisted store (src lines 172-187, 335-339) -/

/-- JSON values, for `notified.json`'s content. -/
inductive Json where
  | null : Json
  | bool : Bool → Json
  | num : Int → Json
  | str : Chars → Json
  | arr : List Json → Json
  | obj : List (Chars × Json) → Json

/-- What `load_notified` finds at its path: no file, a file whose open/parse
raises, or a file parsing to a JSON value. -/
inductive StoreFile where
  | absent : StoreFile
  | unreadable : StoreFile
  | content : Json → StoreFile

/-- `load_notified` (src lines 172-182): absent file, raising open/parse, and
non-list JSON all yield the empty set; a JSON list yields the normalized
string elements (non-strings dropped).  The Python `set` is modelled as a
list, relevant up to membership. -/
def load_notified : StoreFile → List Chars
  | .absent => []
  | .unreadable => []
  | .content j =>
    match j with
    | .arr l => l.filterMap (fun x => match x with | .str s => some (normalize_url s) | _ => none)
    | _ => []

/-- `save_notified`'s payload (src lines 184-187): `sorted(list(notified))` —
Python string sort is lexicographic on code points, which is `≤` on
`List Char`. -/
def save_notified (notified : List Chars) : List Chars :=
  List.insertionSort (· ≤ ·) notified

/-- The single optional store write of src lines 335-339: written only when
`newly_notified` is nonempty, with the sorted set as content; `none` means
the file is left untouched. -/
def savedFile (st : LoopState) : Option (List Chars) :=
  if st.newlyNotified.isEmpty then none else some (save_notified st.notified)

/-- The store as the next run will find it: unchanged if nothing was written,
else the written JSON array. -/
def persistedAfter (st : LoopState) (orig : StoreFile) : StoreFile :=
  match savedFile st with
  | none => orig
  | some l => .content (.arr (l.map Json.str))

/-- Two back-to-back runs of the pipeline on the same document: the state of
the second run, whose notified set is loaded from whatever the first run
persisted. -/
def twoRunSecond (rows : List RawRow) (store0 : StoreFile) : LoopState :=
  let run1 := runPipeline allOk (load_notified store0) rows
  runPipeline allOk (load_notified (persistedAfter run1 store0)) rows

/-! ### Staged view of link extraction (for the strategy-order claim) -/

/-- Strategy 1 of `extract_link_from_cell`: BeautifulSoup anchors (src lines
127-139). -/
def anchorStage (cell : Chars) : Option Chars := anchorPick cell

/-- Strategy 2: the Markdown-link regex (src lines 144-146). -/
def markdownStage (cell : Chars) : Option Chars :=
  (findMarkdownUrl cell).map normalize_url

/-- Strategy 3: the `href=` regex, `html.unescape`d (src lines 149-151). -/
def hrefStage (cell : Chars) : Option Chars :=
  (findHrefUrl cell).map (fun u => normalize_url (unescapeHtml u))

/-- Strategy 4: the bare-URL regex (src lines 154-156). -/
def bareStage (cell : Chars) : Option Chars :=
  (findBareUrl cell).map normalize_url

/-- The four strategies composed in the source's order:
anchors, then Markdown, then `href=` regex, then bare URL. -/
def extractLinkStaged (cell : Chars) : Option Chars :=
  (((anchorStage cell).orElse fun _ => markdownStage cell).orElse
      fun _ => hrefStage cell).orElse
    fun _ => bareStage cell

/-- The extraction order as claim C2 words it: first the Markdown-style link
syntax, then the anchor/`href` attribute (HTML-entity-unescaped), then a bare
absolute URL.  This definition follows the claim's words, for comparison
against `extract_link_from_cell`. -/
def extractClaimOrder (cell : Chars) : Option Chars :=
  ((markdownStage cell).orElse fun _ => hrefStage cell).orElse
    fun _ => bareStage cell

/-! ### Section locator, table extraction and `main`'s exit code
(src lines 32-108, 218-253) -/

/-- Python `str.splitlines()` restricted to `\n` separators (the README is
`\n`-separated; other line terminators are not modelled). -/
def splitLines (l : Chars) : List Chars := l.splitOn '\n'

/-- A line contains one of the heading keywords, case-insensitively
(src lines 36-37). -/
def lineHasKw (kws : List Chars) (line : Chars) : Bool :=
  kws.any (fun kw => hasSub (lowerChars line) (lowerChars kw))

/-- `find_section_markdown` (src lines 32-50): from the first keyword line to
the next `#`-starting line (exclusive) or the end of the document. -/
def find_section_markdown (md : Chars) (kws : List Chars) : Option Chars :=
  let lines := splitLines md
  match lines.findIdx? (lineHasKw kws) with
  | none => none
  | some i =>
    let after := (lines.drop i).drop 1
    let len :=
      match after.findIdx? (fun ln => (cs "#").isPrefixOf ln) with
      | some j => j
      | none => after.length
    some (List.intercalate (cs "\n") ((lines.drop i).take (1 + len)))

/-- The keyword list of src line 227. -/
def section_keywords : List Chars :=
  [cs "Software Engineering Internship Roles", cs "Software Engineering"]

/-- A line whose `strip()` starts with `|` (src line 57). -/
def pipeStart (ln : Chars) : Bool := (cs "|").isPrefixOf (trimChars ln)

/-- `extract_first_markdown_table` (src lines 52-62): the first maximal block
of consecutive pipe-starting lines, right-stripped; `None` when empty. -/
def extract_first_markdown_table (sec : Chars) : Option (List Chars) :=
  let lines := splitLines sec
  let tbl := ((lines.dropWhile (fun ln => !pipeStart ln)).takeWhile pipeStart).map rstripChars
  if tbl.isEmpty then none else some tbl

/-- Strip all leading and trailing `|` (Python `str.strip("|")`). -/
def stripPipes (l : Chars) : Chars :=
  ((l.dropWhile (· = '|')).reverse.dropWhile (· = '|')).reverse

/-- The separator-row regex `^\s*-+\s*(\|\s*-+\s*)*$` of src line 69: every
`|`-separated segment is whitespace around one or more dashes. -/
def isSepRow (row : Chars) : Bool :=
  (row.splitOn '|').all (fun c => let t := trimChars c; !t.isEmpty && t.all (· = '-'))

/-- Python-dict insertion: replace the value if the key exists (keeping its
position), else append. -/
def dictInsert (d : List (Chars × Chars)) (k v : Chars) : List (Chars × Chars) :=
  if d.any (fun p => p.1 = k) then d.map (fun p => if p.1 = k then (k, v) else p)
  else d ++ [(k, v)]

/-- `{headers[i]: cells[i] for i in range(len(headers))}`: sequential dict
inserts over the zipped pairs (cells already padded to the header count). -/
def buildDict (headers cells : List Chars) : List (Chars × Chars) :=
  (headers.zip cells).foldl (fun d kv => dictInsert d kv.1 kv.2) []

/-- Pad with empty cells up to the header count (src lines 77-78, 104-106). -/
def padTo (cells : List Chars) (n : Nat) : List Chars :=
  cells ++ List.replicate (n - cells.length) []

/-- `parse_markdown_table` (src lines 64-80). -/
def parse_markdown_table (table_lines : List Chars) : List (List (Chars × Chars)) :=
  let cleaned := (table_lines.filter (fun ln => !(trimChars ln).isEmpty)).map
    (fun ln => trimChars (stripPipes (trimChars ln)))
  if cleaned.length < 2 then []
  else
    let headers := ((cleaned.headI).splitOn '|').map trimChars
    let data_rows := if isSepRow (cleaned.getD 1 []) then cleaned.drop 2 else cleaned.drop 1
    data_rows.map (fun row =>
      let cells := ((row.splitOn '|').map trimChars)
      buildDict headers (padTo cells headers.length))

/-- Leftmost index of `needle` in `hay`, if any. -/
def findSubIdx? (hay needle : Chars) : Option Nat :=
  (List.range (hay.length + 1)).find? (fun i => needle.isPrefixOf (hay.drop i))

/-- Splits off everything after the first occurrence of `needle`
(Python `hay[hay.index(needle) + len(needle):]`); `[]` when absent. -/
def afterSub (hay needle : Chars) : Chars :=
  match findSubIdx? hay needle with
  | some i => hay.drop (i + needle.length)
  | none => []

/-- Everything before the first occurrence of `needle` (whole list if absent). -/
def beforeSub (hay needle : Chars) : Chars :=
  match findSubIdx? hay needle with
  | some i => hay.take i
  | none => hay

/-- Order-preserving scan for the `<td`/`<th` cell chunks of a fragment; each
chunk (tagged `true` for `<th>`) is cut at its closing tag. -/
def htmlCellsTagged : Chars → List (Bool × Chars)
  | [] => []
  | c :: rest =>
    if (cs "<td").isPrefixOf (c :: rest) then
      (false, beforeSub rest (cs "</td>")) :: htmlCellsTagged (afterSub rest (cs "</td>"))
    else if (cs "<th").isPrefixOf (c :: rest) then
      (true, beforeSub rest (cs "</th>")) :: htmlCellsTagged (afterSub rest (cs "</th>"))
    else htmlCellsTagged rest
termination_by l => l.length
decreasing_by
  all_goals simp [afterSub]
  all_goals split
  all_goals simp
  all_goals omega

/-- Models the BeautifulSoup-based `parse_html_table` (src lines 82-108) as a
tag-marker scan: the first `<table>` element's `<tr>` fragments become rows;
headers come from the `<th>` cells if any exist, else from the first row's
cells; the first row is skipped when it holds `<th>` cells; rows without
cells are dropped; raw cell chunks are the stored values (stripped, padded to
the header count).  Granularity note: the claims below use this parse only
through row presence or absence; BeautifulSoup's recovery on malformed markup
is not modelled. -/
def parse_html_table (frag : Chars) : Option (List (List (Chars × Chars))) :=
  if !hasSub frag (cs "<table") then none
  else
    let tbl := beforeSub (afterSub frag (cs "<table")) (cs "</table>")
    let trChunks := (tbl.splitOn '<').filterMap
      (fun chunk => if (cs "tr").isPrefixOf chunk then some ('<' :: chunk) else none)
    let allCells := trChunks.map htmlCellsTagged
    let ths := (htmlCellsTagged tbl).filter (fun p => p.1)
    let headers :=
      if !ths.isEmpty then ths.map (fun p => strip_html_tags p.2)
      else (allCells.headI).map (fun p => strip_html_tags p.2)
    let start := if (allCells.headI).any (fun p => p.1) then 1 else 0
    some ((allCells.drop start).filterMap (fun cells =>
      if cells.isEmpty then none
      else some (buildDict headers
        ((padTo (cells.map (fun p => p.2)) headers.length).map trimChars))))

/-- The whole-document fallback `re.search(r"(<table[\s\S]*?</table>)", md,
re.IGNORECASE)` (src line 244): the fragment from the first (case-insensitive)
`<table` through the first following `</table>`, if both exist. -/
def searchHtmlTable (md : Chars) : Option Chars :=
  let lmd := lowerChars md
  match findSubIdx? lmd (cs "<table") with
  | none => none
  | some i =>
    match findSubIdx? (lmd.drop i) (cs "</table>") with
    | none => none
    | some j => some ((md.drop i).take (j + 8))

/-- Truthiness of the webhook env value at src line 220 (`os.getenv` gives
`None` when the variable is unset; `not webhook_url` also treats the empty
string as missing). -/
def webhookUsable : Option Chars → Bool
  | none => false
  | some w => !w.isEmpty

/-- The exit code of `main` (src lines 218-339) as a function of the webhook
env value and the fetched document.  Each terminal branch is written out to
mirror the source: missing secret exits 2 before anything else; a missing
section exits 1; an empty row set exits 0 (src line 253); and falling through
the row loop ends the process normally (exit 0) — the loop itself never
exits. -/
def postSectionExit (sec md : Chars) : Nat :=
  match extract_first_markdown_table sec with
  | some table_lines =>
    let rows := parse_markdown_table table_lines
    if rows.isEmpty then 0 else 0
  | none =>
    match parse_html_table sec with
    | some (_ :: _) => 0
    | _ =>
      match searchHtmlTable md with
      | some fragment =>
        match parse_html_table fragment with
        | some (_ :: _) => 0
        | _ => 0
      | none => 0

def mainExit (webhook : Option Chars) (md : Chars) : Nat :=
  if !webhookUsable webhook then 2
  else
    match find_section_markdown md section_keywords with
    | none => 1
    | some sec => postSectionExit sec md

/-! ### Well-formed URLs, cell shapes and concrete rows used by the
claims below -/

/-- The carry state folded over rows, independent of the notified set and the
send oracle. -/
def foldCarry (items : List NRow) (c : Carry) : Carry :=
  items.foldl (fun c i => carryAfter i c) c

/-- The dedup keys of the rows that pass both filters, with the carry state
they see — a function of the document alone. -/
def qualifyingKeys : Carry → List NRow → List Chars
  | _, [] => []
  | c, item :: rest =>
    (if passFilters item then [rowKey (stepCarry item c) item] else []) ++
      qualifyingKeys (carryAfter item c) rest

/-! ### Concrete rows used by witnesses and counterexamples -/

/-- A qualifying Canadian row whose age cell has two spaces before the unit. -/
def rowTwoSpaceAge : RawRow :=
  ⟨cs "Acme", cs "Data Intern", cs "Montreal, Canada", cs "0  d", cs "https://x.co/c3"⟩

/-- A non-Canadian row. -/
def rowUS : NRow :=
  build_normalized_row ⟨cs "Acme", cs "SWE Intern", cs "New York, USA", cs "0d", cs "https://x.co/us"⟩

/-- A stale Canadian row. -/
def rowStale : NRow :=
  build_normalized_row ⟨cs "Acme", cs "SWE Intern", cs "Toronto, Canada", cs "5d", cs "https://x.co/st"⟩

/-- A fresh qualifying Canadian row. -/
def rowFresh : NRow :=
  build_normalized_row ⟨cs "Acme", cs "SWE Intern", cs "Toronto, Canada", cs "0d", cs "https://x.co/fr"⟩

/-- A cell holding both a Markdown-style link and an anchor element. -/
def mixedCell : Chars :=
  cs "[Apply](https://md.example/x) <a href=\"https://anchor.example/y\">go</a>"

/-- A qualifying Canadian row whose URL carries a triple-escaped ampersand. -/
def rowTripleAmp : RawRow :=
  ⟨cs "Acme", cs "SWE Intern", cs "Ottawa, Canada", cs "0d",
   cs "https://x.co/a?b=1&amp;amp;amp;c=2"⟩

/-- A qualifying Canadian row with an entity-free URL. -/
def rowPlainUrl : RawRow :=
  ⟨cs "Acme", cs "SWE Intern", cs "Toronto, Canada", cs "0d", cs "https://x.co/a"⟩

/-- Characters that no extraction strategy treats as a delimiter and that no
normalization step rewrites: not whitespace, not a bracket or parenthesis,
not a quote, not an angle bracket, not `&`, not `|`. -/
def urlChar (c : Char) : Bool :=
  !(c.isWhitespace || c = ')' || c = ']' || c = '[' || c = '(' || c = '"' || c = '\'' ||
    c = '<' || c = '>' || c = '&' || c = '|')

/-- A well-formed absolute URL: `https://` followed by at least one
delimiter-free character, all characters delimiter-free. -/
def niceUrl (u : Chars) : Bool :=
  (cs "https://").isPrefixOf u && decide (8 < u.length) && u.all urlChar

/-- The three source-cell shapes of the dedup-key stability property:
Markdown link syntax, anchor href attribute, bare URL. -/
def mdCell (u : Chars) : Chars := cs "[Apply](" ++ u ++ cs ")"

def anchorCell (u : Chars) : Chars := cs "<a href=\"" ++ u ++ cs "\">Apply</a>"

def bareCell (u : Chars) : Chars := u

/-- The primary row with company "Acme" and a Markdown application link. -/
def rowAcmeMd : RawRow :=
  ⟨cs "Acme", cs "SWE Intern", cs "Toronto, Canada", cs "0d", cs "[Apply](https://x.co/a)"⟩

/-- An immediately following `↳` sub-row with empty application cell that
independently passes both filters. -/
def rowSub : RawRow :=
  ⟨cs "↳", cs "SWE Intern II", cs "Vancouver, Canada", cs "0 days", cs ""⟩

/-- The primary row of the witness scenario, with a bare application URL. -/
def pWit : NRow :=
  build_normalized_row
    ⟨cs "Acme", cs "SWE Intern", cs "Toronto, Canada", cs "0d", cs "https://x.co/w"⟩

/-- The sub-row of the witness scenario. -/
def sWit : NRow := build_normalized_row rowSub

/-- A send oracle whose POST fails exactly for the primary witness row. -/
def failPrimary : Notification → Bool := fun n => n.role != cs "SWE Intern"

/-! ### General lemmas about the row loop -/

theorem rowNotif_key (c' : Carry) (item : NRow) :
    (rowNotif c' item).key = rowKey c' item := rfl

theorem runRows_nil (ok : Notification → Bool) (st : LoopState) :
    runRows ok st [] = st := rfl

theorem runRows_cons (ok : Notification → Bool) (st : LoopState) (item : NRow)
    (rest : List NRow) :
    runRows ok st (item :: rest) = runRows ok (processRow ok st item) rest := rfl

theorem processRow_not_pass (ok : Notification → Bool) (st : LoopState) (item : NRow)
    (h : passFilters item = false) : processRow ok st item = st := by
  unfold processRow
  simp [h]

theorem processRow_carry (ok : Notification → Bool) (st : LoopState) (item : NRow) :
    (processRow ok st item).carry = carryAfter item st.carry := by
  unfold processRow carryAfter
  by_cases h : passFilters item
  · simp only [h, if_true]
    split
    · rfl
    · split <;> rfl
  · simp [h]

theorem processRow_growth (ok : Notification → Bool) (st : LoopState) (item : NRow) :
    ∃ t, (processRow ok st item).notified = st.notified ++ t ∧
      (processRow ok st item).newlyNotified = st.newlyNotified ++ t ∧
      ∃ u, (processRow ok st item).sent = st.sent ++ u := by
  unfold processRow
  by_cases h : passFilters item
  · simp only [h, if_true]
    split
    · exact ⟨[], by simp, by simp, [], by simp⟩
    · split
      · exact ⟨[rowKey (stepCarry item st.carry) item], rfl, rfl,
          [rowNotif (stepCarry item st.carry) item], rfl⟩
      · exact ⟨[], by simp, by simp, [], by simp⟩
  · simp only [h, if_false]
    exact ⟨[], by simp, by simp, [], by simp⟩

theorem runRows_growth (ok : Notification → Bool) (items : List NRow) (st : LoopState) :
    ∃ t, (runRows ok st items).notified = st.notified ++ t ∧
      (runRows ok st items).newlyNotified = st.newlyNotified ++ t ∧
      ∃ u, (runRows ok st items).sent = st.sent ++ u := by
  induction items generalizing st with
  | nil => exact ⟨[], by simp [runRows_nil], by simp [runRows_nil], [], by simp [runRows_nil]⟩
  | cons item rest ih =>
    obtain ⟨t1, h1, h2, u1, h3⟩ := processRow_growth ok st item
    obtain ⟨t2, g1, g2, u2, g3⟩ := ih (processRow ok st item)
    refine ⟨t1 ++ t2, ?_, ?_, u1 ++ u2, ?_⟩ <;>
      simp [runRows_cons, g1, g2, g3, h1, h2, h3]

theorem mem_notified_runRows (ok : Notification → Bool) (items : List NRow)
    (st : LoopState) (k : Chars) (h : k ∈ st.notified) :
    k ∈ (runRows ok st items).notified := by
  obtain ⟨t, h1, -, -⟩ := runRows_growth ok items st
  simp [h1, h]

theorem mem_sent_runRows (ok : Notification → Bool) (items : List NRow)
    (st : LoopState) (n : Notification) (h : n ∈ st.sent) :
    n ∈ (runRows ok st items).sent := by
  obtain ⟨t, -, -, u, h3⟩ := runRows_growth ok items st
  simp [h3, h]

theorem runRows_carry (ok : Notification → Bool) (items : List NRow) (st : LoopState) :
    (runRows ok st items).carry = foldCarry items st.carry := by
  induction items generalizing st with
  | nil => rfl
  | cons item rest ih =>
    rw [runRows_cons]
    show (runRows ok (processRow ok st item) rest).carry = foldCarry rest (carryAfter item st.carry)
    rw [ih (processRow ok st item), processRow_carry]

theorem processRow_mem_key (ok : Notification → Bool) (st : LoopState) (item : NRow)
    (hp : passFilters item = true)
    (hok : ∀ n, ok n = true) :
    rowKey (stepCarry item st.carry) item ∈ (processRow ok st item).notified := by
  unfold processRow
  simp only [hp, if_true]
  split
  · next hc =>
    have := List.elem_iff.mp hc
    simpa using this
  · simp [hok]

theorem qualifying_mem_final (items : List NRow) (st : LoopState) (k : Chars)
    (h : k ∈ qualifyingKeys st.carry items) :
    k ∈ (runRows allOk st items).notified := by
  induction items generalizing st with
  | nil => simp [qualifyingKeys] at h
  | cons item rest ih =>
    rw [runRows_cons]
    unfold qualifyingKeys at h
    rcases List.mem_append.mp h with h1 | h2
    · by_cases hp : passFilters item
      · simp only [hp, if_true, List.mem_singleton] at h1
        subst h1
        exact mem_notified_runRows _ _ _ _ (processRow_mem_key allOk st item hp (fun _ => rfl))
      · simp [hp] at h1
    · have hc : (processRow allOk st item).carry = carryAfter item st.carry :=
        processRow_carry _ _ _
      exact ih (processRow allOk st item) (by rw [hc]; exact h2)

theorem runRows_all_dup (items : List NRow) (ok : Notification → Bool) (st : LoopState)
    (h : ∀ k ∈ qualifyingKeys st.carry items, k ∈ st.notified) :
    (runRows ok st items).notified = st.notified ∧
    (runRows ok st items).newlyNotified = st.newlyNotified ∧
    (runRows ok st items).sent = st.sent := by
  induction items generalizing st with
  | nil => exact ⟨rfl, rfl, rfl⟩
  | cons item rest ih =>
    rw [runRows_cons]
    by_cases hp : passFilters item
    · have hk : rowKey (stepCarry item st.carry) item ∈ st.notified := by
        apply h
        unfold qualifyingKeys
        simp [hp]
      have hstep : processRow ok st item = { st with carry := stepCarry item st.carry } := by
        unfold processRow
        simp only [hp, if_true]
        rw [if_pos]
        exact List.elem_iff.mpr hk
      rw [hstep]
      apply ih
      intro k hkq
      apply h
      unfold qualifyingKeys
      simp only [List.mem_append]
      right
      simpa [carryAfter, hp] using hkq
    · rw [processRow_not_pass ok st item (by simpa using hp)]
      apply ih
      intro k hkq
      apply h
      unfold qualifyingKeys
      simp only [List.mem_append]
      right
      simpa [carryAfter, hp] using hkq

/-- The four possible outcomes of one loop iteration: row filtered out, row
dedup-skipped, notification sent (key recorded), or send failed (only the
error log grows). -/
theorem processRow_shape (ok : Notification → Bool) (st : LoopState) (item : NRow) :
    processRow ok st item = st ∨
    processRow ok st item = { st with carry := stepCarry item st.carry } ∨
    (passFilters item = true ∧ ok (rowNotif (stepCarry item st.carry) item) = true ∧
     processRow ok st item =
       { carry := stepCarry item st.carry,
         notified := st.notified ++ [rowKey (stepCarry item st.carry) item],
         newlyNotified := st.newlyNotified ++ [rowKey (stepCarry item st.carry) item],
         sent := st.sent ++ [rowNotif (stepCarry item st.carry) item],
         failed := st.failed }) ∨
    processRow ok st item =
      { st with carry := stepCarry item st.carry,
                failed := st.failed ++ [rowNotif (stepCarry item st.carry) item] } := by
  unfold processRow
  by_cases hp : passFilters item
  · simp only [hp, if_true]
    split
    · exact .inr (.inl rfl)
    · split
      · next hok => exact .inr (.inr (.inl ⟨trivial, hok, rfl⟩))
      · exact .inr (.inr (.inr rfl))
  · simp only [hp, if_false]
    exact .inl rfl

theorem runRows_key_from_sent (items : List NRow) (ok : Notification → Bool)
    (st : LoopState) (k : Chars) (h : k ∈ (runRows ok st items).notified) :
    k ∈ st.notified ∨ ∃ n ∈ (runRows ok st items).sent, ok n = true ∧ n.key = k := by
  induction items generalizing st with
  | nil => exact .inl h
  | cons item rest ih =>
    rw [runRows_cons] at h ⊢
    rcases ih (processRow ok st item) h with h1 | h2
    · rcases processRow_shape ok st item with hs | hs | ⟨-, hok, hs⟩ | hs
      · rw [hs] at h1
        exact .inl h1
      · rw [hs] at h1
        exact .inl h1
      · rw [hs] at h1
        rcases List.mem_append.mp h1 with hold | hnew
        · exact .inl hold
        · right
          refine ⟨rowNotif (stepCarry item st.carry) item, ?_, hok, ?_⟩
          · apply mem_sent_runRows
            rw [hs]
            simp
          · simpa [rowNotif_key] using (List.mem_singleton.mp hnew).symm
      · rw [hs] at h1
        exact .inl h1
    · exact .inr h2

/-! ### C4 — location filter -/

/-- C4: for every parsed row whose location cell, markup-stripped and
lower-cased, does not contain the literal substring "canada", the row is
never notified regardless of its age: the loop iteration leaves the state
(notified set, sent list, carry) completely unchanged. -/
theorem c4_location_filter (ok : Notification → Bool) (st : LoopState) (item : NRow)
    (h : hasSub (lowerChars (strip_html_tags item.location)) (cs "canada") = false) :
    processRow ok st item = st := by
  apply processRow_not_pass
  have hl : location_is_canada item.location = false := by
    unfold location_is_canada
    split
    · rfl
    · exact h
  simp [passFilters, hl]

theorem c4_location_filter_witness :
    hasSub (lowerChars (strip_html_tags rowUS.location)) (cs "canada") = false ∧
    processRow allOk (initState []) rowUS = initState [] :=
  ⟨by decide, c4_location_filter allOk (initState []) rowUS (by decide)⟩

/-! ### C3 — age filter -/

/-- C3 counterexample: the row with age cell `"0  d"` (two spaces before the
unit) is notified — its age appears on the sent notification — although that
age, lower-cased, contains none of the four tokens `0d`, `0 d`, `0 day`,
`0 days` the claim allows: the source regex `\b0\s*d\b` accepts an arbitrary
whitespace run, so "never notified without one of those tokens" is false. -/
theorem c3_age_tokens_cex :
    (runPipeline allOk [] [rowTwoSpaceAge]).sent.map (fun n => n.age) = [cs "0  d"] ∧
    hasSub (lowerChars (cs "0  d")) (cs "0d") = false ∧
    hasSub (lowerChars (cs "0  d")) (cs "0 d") = false ∧
    hasSub (lowerChars (cs "0  d")) (cs "0 day") = false ∧
    hasSub (lowerChars (cs "0  d")) (cs "0 days") = false := by decide

/-- C3 (amended): a row whose age cell, lower-cased, contains no match of the
pattern "word boundary, `0`, any (possibly empty) whitespace run, then `d`,
`day` or `days`, word boundary" — the regex `\b0\s*d\b|\b0\s*days?\b` — is
never notified, regardless of its location: the loop iteration leaves the
state unchanged. -/
theorem c3_age_regex_amended (ok : Notification → Bool) (st : LoopState) (item : NRow)
    (h : ageMatches (lowerChars item.age) = false) :
    processRow ok st item = st := by
  apply processRow_not_pass
  have ha : ageOk item.age = false := by
    unfold ageOk
    simp [h]
  simp [passFilters, ha]

theorem c3_age_regex_witness :
    ageMatches (lowerChars rowStale.age) = false ∧
    processRow allOk (initState []) rowStale = initState [] :=
  ⟨by decide, c3_age_regex_amended allOk (initState []) rowStale (by decide)⟩

/-! ### C7 — per-row send failure -/

/-- C7: if the webhook send for a qualifying, not-yet-notified row fails, the
failure is recorded (logged) and nothing else changes — the key joins neither
the notified set nor `newly_notified`, so the row stays eligible; and, over
any whole run, a key enters the notified set only when some notification
bearing it was actually sent with success. -/
theorem c7_send_failure (ok : Notification → Bool) (st : LoopState) (item : NRow)
    (hp : passFilters item = true)
    (hnew : st.notified.contains (rowKey (stepCarry item st.carry) item) = false)
    (hfail : ok (rowNotif (stepCarry item st.carry) item) = false) :
    ((processRow ok st item).notified = st.notified ∧
     (processRow ok st item).newlyNotified = st.newlyNotified ∧
     (processRow ok st item).sent = st.sent ∧
     (processRow ok st item).failed = st.failed ++ [rowNotif (stepCarry item st.carry) item]) ∧
    (∀ (items : List NRow) (k : Chars), k ∈ (runRows ok st items).notified →
      k ∈ st.notified ∨ ∃ n ∈ (runRows ok st items).sent, ok n = true ∧ n.key = k) := by
  constructor
  · have hnotin : rowKey (stepCarry item st.carry) item ∉ st.notified := by
      simpa using hnew
    unfold processRow
    simp [hp, hnotin, hfail]
  · intro items k hk
    exact runRows_key_from_sent items ok st k hk

theorem c7_send_failure_witness :
    (processRow (fun _ => false) (initState []) rowFresh).notified = [] ∧
    (processRow (fun _ => false) (initState []) rowFresh).newlyNotified = [] ∧
    (processRow (fun _ => false) (initState []) rowFresh).sent = [] := by
  have h := (c7_send_failure (fun _ => false) (initState []) rowFresh
    (by decide) (by decide) (by decide)).1
  exact ⟨h.1, h.2.1, h.2.2.1⟩

/-! ### C9 — the single optional store write -/

/-- C9: the dedupe file is written at most once per run (the write is the
single `Option`-valued `savedFile`), and only when at least one key was newly
added; the written content is exactly the notified set, as a
lexicographically sorted array; when nothing was added, nothing is written
(the file stays as it was). -/
theorem c9_save_write (st : LoopState) :
    (savedFile st = none ↔ st.newlyNotified = []) ∧
    (∀ l, savedFile st = some l →
      List.Sorted (· ≤ ·) l ∧ ∀ k, (k ∈ l ↔ k ∈ st.notified)) := by
  constructor
  · unfold savedFile
    cases h : st.newlyNotified with
    | nil => simp
    | cons a t => simp
  · intro l hl
    unfold savedFile at hl
    cases h : st.newlyNotified with
    | nil => simp [h] at hl
    | cons a t =>
      simp [h] at hl
      subst hl
      exact ⟨List.sorted_insertionSort _ _,
        fun k => (List.perm_insertionSort (· ≤ ·) st.notified).mem_iff⟩

theorem c9_save_write_witness :
    List.Sorted (· ≤ ·) (save_notified (runPipeline allOk [] [rowTwoSpaceAge]).notified) :=
  ((c9_save_write (runPipeline allOk [] [rowTwoSpaceAge])).2
    (save_notified (runPipeline allOk [] [rowTwoSpaceAge]).notified) (by decide)).1

/-! ### C10 — totality and value of `load_notified` -/

/-- C10: `load_notified` is total; it returns the empty set unless the store
holds a JSON array, and on a JSON array returns exactly the
normalized (HTML-entity-unescaped, trimmed) string elements, dropping
non-string elements.  Stated as a membership characterization. -/
theorem c10_load_total (f : StoreFile) (s : Chars) :
    s ∈ load_notified f ↔
      ∃ l x, f = .content (.arr l) ∧ Json.str x ∈ l ∧ s = normalize_url x := by
  cases f with
  | absent =>
    simp [load_notified]
  | unreadable =>
    simp [load_notified]
  | content j =>
    cases j with
    | arr l =>
      unfold load_notified
      constructor
      · intro h
        obtain ⟨x, hx, hg⟩ := List.mem_filterMap.mp h
        cases x with
        | str s' =>
          simp only [Option.some.injEq] at hg
          exact ⟨l, s', rfl, hx, hg.symm⟩
        | null => simp at hg
        | bool b => simp at hg
        | num n => simp at hg
        | arr l2 => simp at hg
        | obj o => simp at hg
      · rintro ⟨l', x, hf, hx, hs⟩
        have hll : l' = l := by
          injection hf with hf1
          injection hf1 with hf2
          exact hf2.symm
        subst hll
        exact List.mem_filterMap.mpr ⟨Json.str x, hx, by simp [hs]⟩
    | null => simp [load_notified]
    | bool b => simp [load_notified]
    | num n => simp [load_notified]
    | str s' => simp [load_notified]
    | obj o => simp [load_notified]

/-! ### C8 — process exit codes -/

theorem postSectionExit_zero (sec md : Chars) : postSectionExit sec md = 0 := by
  unfold postSectionExit
  split
  · simp only []
    split <;> rfl
  · split
    · rfl
    · split
      · split <;> rfl
      · rfl

/-- C8: the exit code is 2 exactly when no usable webhook secret is present
(unset or empty env value — `not webhook_url` reads both as missing), in which
case nothing else runs; 1 exactly when the secret is usable but the target
section cannot be located; and 0 in every other case — whether the markdown
table is found, the HTML fallbacks are found, or no table or no rows exist at
all, every post-section path terminates normally or via `sys.exit(0)`. -/
theorem c8_exit_codes (w : Option Chars) (md : Chars) :
    (mainExit w md = 2 ↔ (w = none ∨ w = some [])) ∧
    (mainExit w md = 1 ↔
      (webhookUsable w = true ∧ find_section_markdown md section_keywords = none)) ∧
    (mainExit w md = 0 ↔
      (webhookUsable w = true ∧ (find_section_markdown md section_keywords).isSome)) := by
  have husable : webhookUsable w = false ↔ (w = none ∨ w = some []) := by
    cases w with
    | none => simp [webhookUsable]
    | some v => cases v <;> simp [webhookUsable]
  by_cases hw : webhookUsable w = true
  · have hm : mainExit w md =
        (match find_section_markdown md section_keywords with
         | none => 1
         | some sec => postSectionExit sec md) := by
      unfold mainExit
      rw [hw]
      rfl
    cases hs : find_section_markdown md section_keywords with
    | none =>
      rw [hs] at hm
      have hnot : ¬(w = none ∨ w = some []) := by
        rw [← husable, hw]
        simp
      refine ⟨?_, ?_, ?_⟩ <;> simp [hm, hw, hs, hnot]
    | some sec =>
      rw [hs] at hm
      simp only [] at hm
      rw [postSectionExit_zero] at hm
      have hnot : ¬(w = none ∨ w = some []) := by
        rw [← husable, hw]
        simp
      refine ⟨?_, ?_, ?_⟩ <;> simp [hm, hw, hs, hnot]
  · have hw' : webhookUsable w = false := by simpa using hw
    have hm : mainExit w md = 2 := by
      unfold mainExit
      rw [hw']
      rfl
    refine ⟨?_, ?_, ?_⟩
    · simp [hm, ← husable, hw']
    · simp [hm, hw']
    · simp [hm, hw']

/-! ### C2 — link-extraction strategy order -/

/-- C2 counterexample: on a cell holding both a Markdown-style link and an
anchor element, `extract_link_from_cell` resolves the anchor's href — the
claimed order (Markdown first, then anchor href, then bare URL), written out
as `extractClaimOrder`, would resolve the Markdown URL instead.  The code's
first strategy is the anchor parse, not the Markdown syntax. -/
theorem c2_extraction_order_cex :
    extract_link_from_cell mixedCell = some (cs "https://anchor.example/y") ∧
    extractClaimOrder mixedCell = some (cs "https://md.example/x") ∧
    extract_link_from_cell mixedCell ≠ extractClaimOrder mixedCell := by decide

/-- C2 (amended): link extraction tries, in order: (1) anchor-element hrefs
parsed from the markup (preferring an absolute href that does not contain the
internal `simplify.jobs/p/` path, else the first absolute href); (2) the
Markdown-style link syntax; (3) a regex-extracted `href=` attribute,
HTML-entity-unescaped; (4) a bare absolute URL — the first success wins; and
at the call site the raw-markup form of the application cell is tried before
the plain-text form. -/
theorem c2_extraction_order_amended (cell : Chars) (item : NRow) :
    extract_link_from_cell cell = extractLinkStaged cell ∧
    rowOwnLink item = (extract_link_from_cell item.applicationRaw).orElse
      (fun _ => extract_link_from_cell item.application) := by
  refine ⟨?_, rfl⟩
  unfold extract_link_from_cell extractLinkStaged anchorStage markdownStage hrefStage bareStage
  cases cell with
  | nil => rfl
  | cons c rest =>
    simp only [List.isEmpty_cons, if_neg, Bool.false_eq_true, not_false_eq_true]
    cases h1 : anchorPick (c :: rest) <;>
      cases h2 : findMarkdownUrl (c :: rest) <;>
        cases h3 : findHrefUrl (c :: rest) <;>
          cases h4 : findBareUrl (c :: rest) <;>
            simp [h1, h2, h3, h4, Option.orElse]

/-! ### C6 — idempotence of two consecutive runs -/

/-- C6 counterexample: on a document whose application URL carries a
triple-escaped ampersand, the first run (all sends succeeding) notifies once
and persists the key `…b=1&amp;c=2`; loading re-normalizes it to `…b=1&c=2`,
which no longer matches the recomputed key, so the second run against the
unchanged document notifies the same row again — not zero notifications. -/
theorem c6_idempotence_cex :
    (runPipeline allOk (load_notified .absent) [rowTripleAmp]).sent.length = 1 ∧
    (twoRunSecond [rowTripleAmp] .absent).sent.length = 1 := by decide

theorem load_notified_array (l : List Chars) :
    load_notified (.content (.arr (l.map Json.str))) = l.map normalize_url := by
  unfold load_notified
  induction l with
  | nil => rfl
  | cons a t ih => simpa [List.filterMap_cons] using ih

/-- C6 (amended): two back-to-back runs against an unchanged document with
every send of the first run succeeding produce zero notifications on the
second run, provided every key in the first run's final notified set is a
fixed point of `normalize_url` — i.e. no persisted key still contains an HTML
entity after normalization (no triple-escaped ampersands and the like in the
document); the load-time re-normalization is then the identity and every
recomputed key dedup-hits. -/
theorem c6_idempotence_amended (rows : List RawRow) (store0 : StoreFile)
    (h : ∀ k ∈ (runPipeline allOk (load_notified store0) rows).notified,
      normalize_url k = k) :
    (twoRunSecond rows store0).sent = [] ∧
    (twoRunSecond rows store0).newlyNotified = [] := by
  have htwo : twoRunSecond rows store0 =
      runRows allOk
        (initState (load_notified
          (persistedAfter (runRows allOk (initState (load_notified store0))
            (build_normalized_rows rows)) store0)))
        (build_normalized_rows rows) := rfl
  set N0 := load_notified store0 with hN0
  set items := build_normalized_rows rows with hitems
  set run1 := runRows allOk (initState N0) items with hrun1
  set N2 := load_notified (persistedAfter run1 store0) with hN2
  have hmem : ∀ k ∈ qualifyingKeys (initState N2).carry items, k ∈ N2 := by
    intro k hk
    have hk1 : k ∈ run1.notified := by
      have hcarry : (initState N2).carry = (initState N0).carry := rfl
      rw [hcarry] at hk
      exact qualifying_mem_final items (initState N0) k hk
    rcases hnl : run1.newlyNotified with _ | ⟨a, t⟩
    · have hsf : savedFile run1 = none := by
        unfold savedFile
        simp [hnl]
      have hN2eq : N2 = N0 := by
        rw [hN2]
        unfold persistedAfter
        rw [hsf]
      obtain ⟨t0, ht1, ht2, -⟩ := runRows_growth allOk items (initState N0)
      have ht0 : t0 = [] := by
        rw [← hrun1] at ht2
        rw [hnl] at ht2
        simpa [initState] using ht2.symm
      have hnot : run1.notified = N0 := by
        rw [hrun1, ht1, ht0]
        simp [initState]
      rw [hN2eq, ← hnot]
      exact hk1
    · have hsf : savedFile run1 = some (save_notified run1.notified) := by
        unfold savedFile
        simp [hnl]
      have hN2eq : N2 = (save_notified run1.notified).map normalize_url := by
        rw [hN2]
        unfold persistedAfter
        rw [hsf]
        exact load_notified_array (save_notified run1.notified)
      have hks : k ∈ save_notified run1.notified := by
        unfold save_notified
        exact ((List.perm_insertionSort (· ≤ ·) run1.notified).mem_iff).mpr hk1
      rw [hN2eq]
      exact List.mem_map.mpr ⟨k, hks, h k hk1⟩
  have hfinal := runRows_all_dup items allOk (initState N2) hmem
  rw [htwo]
  exact ⟨hfinal.2.2, hfinal.2.1⟩

theorem c6_idempotence_witness :
    (twoRunSecond [rowPlainUrl] .absent).sent = [] ∧
    (twoRunSecond [rowPlainUrl] .absent).newlyNotified = [] :=
  c6_idempotence_amended [rowPlainUrl] .absent (by decide)

/-! ### Well-formed URLs and scanner lemmas (for the dedup-key and
sub-row claims) -/

theorem urlChar_spec (c : Char) (h : urlChar c = true) :
    c.isWhitespace = false ∧ c ≠ ')' ∧ c ≠ ']' ∧ c ≠ '[' ∧ c ≠ '(' ∧ c ≠ '"' ∧
    c ≠ '\'' ∧ c ≠ '<' ∧ c ≠ '>' ∧ c ≠ '&' ∧ c ≠ '|' := by
  unfold urlChar at h
  simp only [Bool.not_eq_true', Bool.or_eq_false_iff, decide_eq_false_iff_not] at h
  tauto

theorem niceUrl_decomp (u : Chars) (hu : niceUrl u = true) :
    u = cs "https://" ++ u.drop 8 ∧ u.drop 8 ≠ [] ∧ ∀ c ∈ u, urlChar c = true := by
  unfold niceUrl at hu
  simp only [Bool.and_eq_true, decide_eq_true_eq, List.all_eq_true] at hu
  obtain ⟨⟨hpre, hlen⟩, hall⟩ := hu
  obtain ⟨t, ht⟩ := (List.isPrefixOf_iff_prefix.mp hpre)
  have hdrop : u.drop 8 = t := by
    rw [← ht]
    have h8 : (cs "https://").length = 8 := rfl
    rw [← h8, List.drop_left]
  refine ⟨?_, ?_, hall⟩
  · rw [hdrop, ht]
  · rw [hdrop]
    intro hnil
    subst hnil
    simp at ht
    rw [← ht] at hlen
    simp [cs] at hlen

theorem takeWhile_append_of_all {p : Char → Bool} (u v : Chars)
    (h : ∀ c ∈ u, p c = true) :
    (u ++ v).takeWhile p = u ++ v.takeWhile p := by
  induction u with
  | nil => rfl
  | cons a t ih =>
    have ha := h a (by simp)
    simp only [List.cons_append, List.takeWhile_cons, ha, if_true]
    rw [ih (fun c hc => h c (by simp [hc]))]

theorem dropWhile_append_of_all {p : Char → Bool} (u v : Chars)
    (h : ∀ c ∈ u, p c = true) :
    (u ++ v).dropWhile p = v.dropWhile p := by
  induction u with
  | nil => rfl
  | cons a t ih =>
    have ha := h a (by simp)
    simp only [List.cons_append, List.dropWhile_cons, ha, if_true]
    exact ih (fun c hc => h c (by simp [hc]))

theorem dropWhile_of_all_false {p : Char → Bool} (u : Chars)
    (h : ∀ c ∈ u, p c = false) : u.dropWhile p = u := by
  cases u with
  | nil => rfl
  | cons a t =>
    have ha := h a (by simp)
    simp [List.dropWhile_cons, ha]

theorem trimChars_id (u : Chars) (h : ∀ c ∈ u, c.isWhitespace = false) :
    trimChars u = u := by
  unfold trimChars
  rw [dropWhile_of_all_false u h,
    dropWhile_of_all_false u.reverse (fun c hc => h c (List.mem_reverse.mp hc)),
    List.reverse_reverse]

theorem unescapeHtml_id (u : Chars) (h : ∀ c ∈ u, c ≠ '&') : unescapeHtml u = u := by
  induction u with
  | nil => rfl
  | cons c rest ih =>
    have hc : c ≠ '&' := h c (by simp)
    have ih' := ih (fun x hx => h x (by simp [hx]))
    unfold unescapeHtml
    rw [if_neg hc, ih']

theorem removeTagsAux_false_id (u : Chars) (h : ∀ c ∈ u, c ≠ '<') :
    removeTagsAux false u = u := by
  induction u with
  | nil => rfl
  | cons c rest ih =>
    have hc : c ≠ '<' := h c (by simp)
    simp only [removeTagsAux, hc, if_false]
    rw [ih (fun x hx => h x (by simp [hx]))]

theorem strip_html_tags_id (u : Chars) (hlt : ∀ c ∈ u, c ≠ '<')
    (hamp : ∀ c ∈ u, c ≠ '&') (hws : ∀ c ∈ u, c.isWhitespace = false) :
    strip_html_tags u = u := by
  unfold strip_html_tags removeTags
  rw [removeTagsAux_false_id u hlt, unescapeHtml_id u hamp, trimChars_id u hws]

theorem normalize_url_eq_trim_unescape (l : Chars) :
    normalize_url l = trimChars (unescapeHtml l) := by
  cases l with
  | nil => rfl
  | cons a t =>
    unfold normalize_url
    rw [if_neg]
    simp

theorem normalize_url_id (u : Chars) (hamp : ∀ c ∈ u, c ≠ '&')
    (hws : ∀ c ∈ u, c.isWhitespace = false) : normalize_url u = u := by
  rw [normalize_url_eq_trim_unescape, unescapeHtml_id u hamp, trimChars_id u hws]

theorem urlAfter_nice (allowed : Char → Bool) (u v : Chars) (hu : niceUrl u = true)
    (hallow : ∀ c ∈ u.drop 8, allowed c = true)
    (hv : v = [] ∨ ∃ c w, v = c :: w ∧ allowed c = false) :
    urlAfter allowed (u ++ v) = some (u, v) := by
  obtain ⟨hdecomp, hne, -⟩ := niceUrl_decomp u hu
  have hassoc : u ++ v = cs "https://" ++ (u.drop 8 ++ v) := by
    conv_lhs => rw [hdecomp]
    rw [List.append_assoc]
  have hpre : (cs "https://").isPrefixOf (u ++ v) = true := by
    rw [hassoc]
    exact List.isPrefixOf_iff_prefix.mpr (List.prefix_append _ _)
  have hdrop : (u ++ v).drop 8 = u.drop 8 ++ v := by
    rw [hassoc]
    have h8 : (cs "https://").length = 8 := rfl
    rw [← h8, List.drop_left]
  have htake : ((u ++ v).drop 8).takeWhile allowed = u.drop 8 := by
    rw [hdrop, takeWhile_append_of_all _ _ hallow]
    rcases hv with rfl | ⟨c, w, rfl, hc⟩
    · simp
    · simp [List.takeWhile_cons, hc]
  have hdw : ((u ++ v).drop 8).dropWhile allowed = v := by
    rw [hdrop, dropWhile_append_of_all _ _ hallow]
    rcases hv with rfl | ⟨c, w, rfl, hc⟩
    · simp
    · simp [List.dropWhile_cons, hc]
  unfold urlAfter
  rw [hpre]
  simp only [if_true]
  rw [htake, hdw]
  rw [if_neg (by simpa using hne)]
  rw [← hdecomp]

theorem urlChar_not_lt (c : Char) (h : urlChar c = true) : c ≠ '<' :=
  (urlChar_spec c h).2.2.2.2.2.2.2.1

theorem urlChar_not_gt (c : Char) (h : urlChar c = true) : c ≠ '>' :=
  (urlChar_spec c h).2.2.2.2.2.2.2.2.1

theorem urlChar_not_amp (c : Char) (h : urlChar c = true) : c ≠ '&' :=
  (urlChar_spec c h).2.2.2.2.2.2.2.2.2.1

theorem urlChar_not_ws (c : Char) (h : urlChar c = true) : c.isWhitespace = false :=
  (urlChar_spec c h).1

theorem urlChar_not_lb (c : Char) (h : urlChar c = true) : c ≠ '[' :=
  (urlChar_spec c h).2.2.2.1

theorem urlChar_not_dq (c : Char) (h : urlChar c = true) : c ≠ '"' :=
  (urlChar_spec c h).2.2.2.2.2.1

theorem urlChar_not_quote (c : Char) (h : urlChar c = true) : hrefQuote c = false := by
  have h1 := (urlChar_spec c h).2.2.2.2.2.1
  have h2 := (urlChar_spec c h).2.2.2.2.2.2.1
  unfold hrefQuote
  simp [h1, h2]

theorem urlChar_bareAllowed (c : Char) (h : urlChar c = true) : bareAllowed c = true := by
  have hs := urlChar_spec c h
  unfold bareAllowed
  simp [hs.1, hs.2.1, hs.2.2.1]

theorem urlChar_mdAllowed (c : Char) (h : urlChar c = true) : mdAllowed c = true := by
  have hs := urlChar_spec c h
  unfold mdAllowed
  simp [hs.1, hs.2.1]

theorem niceUrl_ne_nil (u : Chars) (hu : niceUrl u = true) : u ≠ [] := by
  intro hnil
  subst hnil
  simp [niceUrl, cs] at hu

theorem findBareUrl_nice (u : Chars) (hu : niceUrl u = true) : findBareUrl u = some u := by
  obtain ⟨hdecomp, hne, hall⟩ := niceUrl_decomp u hu
  have h1 : urlAfter bareAllowed u = some (u, []) := by
    have h2 := urlAfter_nice bareAllowed u [] hu
      (fun c hc => urlChar_bareAllowed c (hall c (List.mem_of_mem_drop hc)))
      (.inl rfl)
    simpa using h2
  cases hu' : u with
  | nil => exact absurd hu' (niceUrl_ne_nil u hu)
  | cons c rest =>
    subst hu'
    conv_lhs => unfold findBareUrl
    rw [h1]

theorem mdAfterBracket_step (c : Char) (rest : Chars) (h1 : c ≠ '\n') (h2 : c ≠ ']') :
    mdAfterBracket (c :: rest) = mdAfterBracket rest := by
  conv_lhs => unfold mdAfterBracket
  rw [if_neg h1, if_neg h2]

theorem findMarkdownUrl_none (l : Chars) (h : ∀ c ∈ l, c ≠ '[') :
    findMarkdownUrl l = none := by
  induction l with
  | nil => rfl
  | cons c rest ih =>
    conv_lhs => unfold findMarkdownUrl
    rw [if_neg (h c (by simp))]
    exact ih (fun x hx => h x (by simp [hx]))

theorem hrefAt_none (m : Chars) (h : ∀ c ∈ m, hrefQuote c = false) : hrefAt m = none := by
  cases m with
  | nil => rfl
  | cons q rest =>
    conv_lhs => unfold hrefAt
    dsimp only
    rw [if_neg (by simp [h q (by simp)])]

theorem findHrefUrl_none (l : Chars) (h : ∀ c ∈ l, hrefQuote c = false) :
    findHrefUrl l = none := by
  induction l with
  | nil => rfl
  | cons c rest ih =>
    conv_lhs => unfold findHrefUrl
    by_cases hp : (cs "href=").isPrefixOf (c :: rest) = true
    · rw [if_pos hp]
      rw [hrefAt_none ((c :: rest).drop 5)
        (fun x hx => h x (List.drop_subset _ _ hx))]
      exact ih (fun x hx => h x (by simp [hx]))
    · rw [if_neg hp]
      exact ih (fun x hx => h x (by simp [hx]))

theorem findAnchorAux_none_step (c : Char) (rest : Chars) (hc : c ≠ '<') :
    findAnchorAux none (c :: rest) = findAnchorAux none rest := by
  conv_lhs => unfold findAnchorAux
  rw [if_neg hc]

theorem findAnchorAux_none_of_no_lt (l : Chars) (h : ∀ c ∈ l, c ≠ '<') :
    findAnchorAux none l = [] := by
  induction l with
  | nil => rfl
  | cons c rest ih =>
    rw [findAnchorAux_none_step c rest (h c (by simp))]
    exact ih (fun x hx => h x (by simp [hx]))

theorem findAnchorAux_some_step (acc : Chars) (c : Char) (rest : Chars) (hc : c ≠ '>') :
    findAnchorAux (some acc) (c :: rest) = findAnchorAux (some (c :: acc)) rest := by
  conv_lhs => unfold findAnchorAux
  rw [if_neg hc]

theorem findAnchorAux_some_append (acc u v : Chars) (h : ∀ c ∈ u, c ≠ '>') :
    findAnchorAux (some acc) (u ++ v) = findAnchorAux (some (u.reverse ++ acc)) v := by
  induction u generalizing acc with
  | nil => simp
  | cons a t ih =>
    rw [List.cons_append, findAnchorAux_some_step acc a (t ++ v) (h a (by simp))]
    rw [ih (a :: acc) (fun x hx => h x (by simp [hx]))]
    congr 1
    simp

theorem hrefInTag_step (c : Char) (rest : Chars)
    (hnp : (cs "href=").isPrefixOf (c :: rest) = false) :
    hrefInTag (c :: rest) = hrefInTag rest := by
  conv_lhs => unfold hrefInTag
  rw [hnp]
  simp

theorem anchorPick_nil (cell : Chars) (h : findAnchorHrefs cell = []) :
    anchorPick cell = none := by
  unfold anchorPick
  rw [h]
  rfl

theorem isEmpty_false_of_nice (u : Chars) (hu : niceUrl u = true) : u.isEmpty = false := by
  cases hn : u with
  | nil =>
    subst hn
    exact absurd rfl (niceUrl_ne_nil [] hu)
  | cons _ _ => rfl

theorem extract_bare_nice (u : Chars) (hu : niceUrl u = true) :
    extract_link_from_cell u = some u := by
  obtain ⟨hdecomp, hne, hall⟩ := niceUrl_decomp u hu
  have hanch : anchorPick u = none :=
    anchorPick_nil u (by
      unfold findAnchorHrefs
      exact findAnchorAux_none_of_no_lt u (fun c hc => urlChar_not_lt c (hall c hc)))
  have hmd : findMarkdownUrl u = none :=
    findMarkdownUrl_none u (fun c hc => urlChar_not_lb c (hall c hc))
  have hhr : findHrefUrl u = none :=
    findHrefUrl_none u (fun c hc => urlChar_not_quote c (hall c hc))
  have hbu : findBareUrl u = some u := findBareUrl_nice u hu
  have hnorm : normalize_url u = u :=
    normalize_url_id u (fun c hc => urlChar_not_amp c (hall c hc))
      (fun c hc => urlChar_not_ws c (hall c hc))
  unfold extract_link_from_cell
  rw [isEmpty_false_of_nice u hu]
  simp only [Bool.false_eq_true, if_false]
  rw [hanch, hmd, hhr, hbu]
  show some (normalize_url u) = some u
  rw [hnorm]

theorem extract_md_nice (u : Chars) (hu : niceUrl u = true) :
    extract_link_from_cell (mdCell u) = some u := by
  obtain ⟨hdecomp, hne, hall⟩ := niceUrl_decomp u hu
  have hcell : mdCell u = '[' :: ('A':: 'p':: 'p':: 'l':: 'y':: ']':: '('::(u ++ [')'])) := by
    unfold mdCell cs
    rfl
  have hmem : ∀ c ∈ mdCell u, c ∈ cs "[Apply](" ∨ c ∈ u ∨ c ∈ cs ")" := by
    intro c hc
    unfold mdCell at hc
    simp only [List.append_assoc, List.mem_append] at hc
    tauto
  have hnolt : ∀ c ∈ mdCell u, c ≠ '<' := by
    intro c hc
    rcases hmem c hc with h1 | h2 | h3
    · exact (show ∀ x ∈ cs "[Apply](", x ≠ '<' by decide) c h1
    · exact urlChar_not_lt c (hall c h2)
    · exact (show ∀ x ∈ cs ")", x ≠ '<' by decide) c h3
  have hnoq : ∀ c ∈ mdCell u, hrefQuote c = false := by
    intro c hc
    rcases hmem c hc with h1 | h2 | h3
    · exact (show ∀ x ∈ cs "[Apply](", hrefQuote x = false by decide) c h1
    · exact urlChar_not_quote c (hall c h2)
    · exact (show ∀ x ∈ cs ")", hrefQuote x = false by decide) c h3
  have hanch : anchorPick (mdCell u) = none :=
    anchorPick_nil _ (by
      unfold findAnchorHrefs
      exact findAnchorAux_none_of_no_lt _ hnolt)
  have hua : urlAfter mdAllowed (u ++ [')']) = some (u, [')']) :=
    urlAfter_nice mdAllowed u [')'] hu
      (fun c hc => urlChar_mdAllowed c (hall c (List.mem_of_mem_drop hc)))
      (.inr ⟨')', [], rfl, by decide⟩)
  have hparen : mdParen ('('::(u ++ [')'])) = some u := by
    simp only [mdParen]
    rw [hua]
    rfl
  have hbr : mdAfterBracket ('A':: 'p':: 'p':: 'l':: 'y':: ']':: '('::(u ++ [')'])) = some u := by
    rw [mdAfterBracket_step 'A' _ (by decide) (by decide)]
    rw [mdAfterBracket_step 'p' _ (by decide) (by decide)]
    rw [mdAfterBracket_step 'p' _ (by decide) (by decide)]
    rw [mdAfterBracket_step 'l' _ (by decide) (by decide)]
    rw [mdAfterBracket_step 'y' _ (by decide) (by decide)]
    conv_lhs => unfold mdAfterBracket
    rw [if_neg (by decide), if_pos rfl]
    rw [hparen]
  have hmdeq : findMarkdownUrl (mdCell u) = some u := by
    rw [hcell]
    conv_lhs => unfold findMarkdownUrl
    rw [if_pos rfl]
    rw [hbr]
  have hnorm : normalize_url u = u :=
    normalize_url_id u (fun c hc => urlChar_not_amp c (hall c hc))
      (fun c hc => urlChar_not_ws c (hall c hc))
  have hisempty : (mdCell u).isEmpty = false := by
    rw [hcell]
    rfl
  unfold extract_link_from_cell
  rw [hisempty]
  simp only [Bool.false_eq_true, if_false]
  rw [hanch, hmdeq]
  show some (normalize_url u) = some u
  rw [hnorm]

theorem extract_anchor_nice (u : Chars) (hu : niceUrl u = true) :
    extract_link_from_cell (anchorCell u) = some u := by
  obtain ⟨hdecomp, hne, hall⟩ := niceUrl_decomp u hu
  have hnogt : ∀ c ∈ u, c ≠ '>' := fun c hc => urlChar_not_gt c (hall c hc)
  have htrim : trimChars u = u :=
    trimChars_id u (fun c hc => urlChar_not_ws c (hall c hc))
  have hunesc : unescapeHtml u = u :=
    unescapeHtml_id u (fun c hc => urlChar_not_amp c (hall c hc))
  have hnorm : normalize_url u = u :=
    normalize_url_id u (fun c hc => urlChar_not_amp c (hall c hc))
      (fun c hc => urlChar_not_ws c (hall c hc))
  have hht : hrefInTag (' ':: 'h':: 'r':: 'e':: 'f':: '=':: '"'::(u ++ ['"'])) = some u := by
    have h0 : hrefInTag (' ':: 'h':: 'r':: 'e':: 'f':: '=':: '"'::(u ++ ['"'])) =
        some ((u ++ ['"']).takeWhile (fun x => decide (x ≠ '"'))) := rfl
    rw [h0, takeWhile_append_of_all u ['"']
      (fun c hc => by simp [urlChar_not_dq c (hall c hc)])]
    simp
  have hfa : findAnchorAux none (anchorCell u) = [u] := by
    have hjump : findAnchorAux none (anchorCell u) =
        findAnchorAux (some ('"':: '=':: 'f':: 'e':: 'r':: 'h'::[' ']))
          (u ++ ('"':: '>'::cs "Apply</a>")) := rfl
    rw [hjump]
    rw [findAnchorAux_some_append _ u _ hnogt]
    rw [findAnchorAux_some_step _ '"' _ (by decide)]
    have h1 : findAnchorAux (some ('"' :: (u.reverse ++ '"':: '=':: 'f':: 'e':: 'r':: 'h'::[' '])))
        ('>'::cs "Apply</a>")
        = (match hrefInTag ('"' :: (u.reverse ++ '"':: '=':: 'f':: 'e':: 'r':: 'h'::[' '])).reverse with
           | some v => unescapeHtml v :: findAnchorAux none (cs "Apply</a>")
           | none => findAnchorAux none (cs "Apply</a>")) := rfl
    rw [h1]
    have hrev : ('"' :: (u.reverse ++ ('"':: '=':: 'f':: 'e':: 'r':: 'h'::[' ']))).reverse
        = ' ':: 'h':: 'r':: 'e':: 'f':: '=':: '"'::(u ++ ['"']) := by
      simp
    rw [hrev, hht]
    show unescapeHtml u :: findAnchorAux none (cs "Apply</a>") = [u]
    rw [hunesc]
    rw [show findAnchorAux none (cs "Apply</a>") = [] from by decide]
  have habs : absHttp u = true := by
    rw [hdecomp]
    rfl
  have hpick : anchorPick (anchorCell u) = some u := by
    unfold anchorPick
    rw [show findAnchorHrefs (anchorCell u) = [u] from hfa]
    rw [show ([u].map trimChars) = [u] from by simp [htrim]]
    cases hsimp : hasSub u (cs "simplify.jobs/p/") with
    | true => simp [List.find?, habs, hsimp, hnorm]
    | false => simp [List.find?, habs, hsimp, hnorm]
  unfold extract_link_from_cell
  rw [show (anchorCell u).isEmpty = false from rfl]
  simp only [Bool.false_eq_true, if_false]
  rw [hpick]

/-! ### C5 — dedup-key stability -/

/-- C5: for a row with a resolvable link the dedup key is the
HTML-entity-unescaped, whitespace-trimmed link string (`normalize_url`), and
a well-formed URL resolves to the same link — hence the same key — whether
the source cell carries it as Markdown link syntax, as an anchor href
attribute, or as a bare URL; for a row with no resolvable link the key is the
composite `company|role|location` string (with the sub-row company
substitution). -/
theorem c5_dedup_key_stability (u : Chars) (hu : niceUrl u = true) :
    (extract_link_from_cell (mdCell u) = some u ∧
     extract_link_from_cell (anchorCell u) = some u ∧
     extract_link_from_cell (bareCell u) = some u) ∧
    (∀ (c' : Carry) (item : NRow),
      (∀ l, rowLink c' item = some l → rowKey c' item = trimChars (unescapeHtml l)) ∧
      (rowLink c' item = none →
        rowKey c' item =
          (if sCompany item = cs "↳" && prevTruthy c' then c'.previousCompany.getD []
           else sCompany item) ++ '|' :: trimChars item.role ++ '|' ::
            trimChars (strip_html_tags item.location))) := by
  refine ⟨⟨extract_md_nice u hu, extract_anchor_nice u hu, extract_bare_nice u hu⟩, ?_⟩
  intro c' item
  constructor
  · intro l hl
    unfold rowKey
    rw [hl]
    show normalize_url l = trimChars (unescapeHtml l)
    exact normalize_url_eq_trim_unescape l
  · intro hl
    unfold rowKey
    rw [hl]

theorem c5_dedup_key_stability_witness :
    extract_link_from_cell (mdCell (cs "https://x.co/a?b=1")) = some (cs "https://x.co/a?b=1") ∧
    extract_link_from_cell (anchorCell (cs "https://x.co/a?b=1")) = some (cs "https://x.co/a?b=1") ∧
    extract_link_from_cell (bareCell (cs "https://x.co/a?b=1")) = some (cs "https://x.co/a?b=1") :=
  (c5_dedup_key_stability (cs "https://x.co/a?b=1") (by decide)).1

/-! ### C1 — sub-row inheritance -/

theorem processRow_send_ok (ok : Notification → Bool) (st : LoopState) (item : NRow)
    (hp : passFilters item = true)
    (hnew : rowKey (stepCarry item st.carry) item ∉ st.notified)
    (hok : ok (rowNotif (stepCarry item st.carry) item) = true) :
    processRow ok st item =
      { carry := stepCarry item st.carry,
        notified := st.notified ++ [rowKey (stepCarry item st.carry) item],
        newlyNotified := st.newlyNotified ++ [rowKey (stepCarry item st.carry) item],
        sent := st.sent ++ [rowNotif (stepCarry item st.carry) item],
        failed := st.failed } := by
  unfold processRow
  simp [hp, hnew, hok]

theorem processRow_send_fail (ok : Notification → Bool) (st : LoopState) (item : NRow)
    (hp : passFilters item = true)
    (hnew : rowKey (stepCarry item st.carry) item ∉ st.notified)
    (hfail : ok (rowNotif (stepCarry item st.carry) item) = false) :
    processRow ok st item =
      { st with carry := stepCarry item st.carry,
                failed := st.failed ++ [rowNotif (stepCarry item st.carry) item] } := by
  unfold processRow
  simp [hp, hnew, hfail]

/-- C1 counterexample: the primary "Acme" row resolves link
`https://x.co/a` and is notified; the immediately following `↳` sub-row
passes both filters independently, yet the run's only sent notification is
the primary's (role "SWE Intern") — the sub-row inherits the same dedup key
`https://x.co/a`, which the primary just added to the notified set, so the
sub-row is skipped as a duplicate instead of being notified with company
"Acme" and link L as the claim states. -/
theorem c1_subrow_inheritance_cex :
    passFilters (build_normalized_row rowSub) = true ∧
    sCompany (build_normalized_row rowSub) = cs "↳" ∧
    (runPipeline allOk [] [rowAcmeMd, rowSub]).sent.map (fun n => n.role) =
      [cs "SWE Intern"] := by decide

/-- C1 (amended): a `↳` sub-row immediately following a primary row that
passes the filters with company `c ≠ "↳"` and own resolved link `L` inherits
that company and link; but since its dedup key is then `normalize_url L` —
the primary's own key — the sub-row is actually notified with the inherited
company and link only when that key is still absent from the notified set
when the sub-row is reached, e.g. because the primary's send failed (when the
primary's send succeeded the sub-row is dedup-skipped, as the counterexample
shows). -/
theorem c1_subrow_inheritance_amended
    (ok : Notification → Bool) (st : LoopState) (p s : NRow) (L : Chars)
    (hpp : passFilters p = true)
    (hpmain : p.company.isEmpty = false)
    (hpns : sCompany p ≠ cs "↳")
    (hpc : sCompany p ≠ [])
    (hplink : rowOwnLink p = some L)
    (hsp : passFilters s = true)
    (hssub : sCompany s = cs "↳")
    (hslink : rowOwnLink s = none)
    (hkey : normalize_url L ∉ st.notified)
    (hfailp : ok (rowNotif (stepCarry p st.carry) p) = false)
    (hoks : ok (rowNotif (stepCarry s (stepCarry p st.carry)) s) = true) :
    (runRows ok st [p, s]).sent =
      st.sent ++ [rowNotif (stepCarry s (stepCarry p st.carry)) s] ∧
    (rowNotif (stepCarry s (stepCarry p st.carry)) s).company = sCompany p ∧
    (rowNotif (stepCarry s (stepCarry p st.carry)) s).url = some L := by
  have hc1last : (stepCarry p st.carry).lastValidLink = some L := by
    unfold stepCarry
    simp [hpmain, hpns, hplink]
  have hc1prev : (stepCarry p st.carry).previousCompany = some (sCompany p) := by
    unfold stepCarry
    simp [hpmain, hpns]
  have hc2 : stepCarry s (stepCarry p st.carry) = stepCarry p st.carry := by
    unfold stepCarry
    simp [hssub]
  have hrl1 : rowLink (stepCarry p st.carry) p = some L := by
    unfold rowLink
    rw [hplink]
    rfl
  have hrl2 : rowLink (stepCarry s (stepCarry p st.carry)) s = some L := by
    unfold rowLink
    rw [hslink]
    show (stepCarry s (stepCarry p st.carry)).lastValidLink = some L
    rw [hc2, hc1last]
  have hk1 : rowKey (stepCarry p st.carry) p = normalize_url L := by
    unfold rowKey
    rw [hrl1]
  have hk2 : rowKey (stepCarry s (stepCarry p st.carry)) s = normalize_url L := by
    unfold rowKey
    rw [hrl2]
  have hpe : (sCompany p).isEmpty = false := by
    cases hsc : sCompany p with
    | nil => exact absurd hsc hpc
    | cons _ _ => rfl
  have h1 : processRow ok st p =
      { st with carry := stepCarry p st.carry,
                failed := st.failed ++ [rowNotif (stepCarry p st.carry) p] } :=
    processRow_send_fail ok st p hpp (by rw [hk1]; exact hkey) hfailp
  have hn1 : (processRow ok st p).notified = st.notified := by rw [h1]
  have hs1 : (processRow ok st p).sent = st.sent := by rw [h1]
  have hcar1 : (processRow ok st p).carry = stepCarry p st.carry := by rw [h1]
  have h2 : processRow ok (processRow ok st p) s =
      { carry := stepCarry s (processRow ok st p).carry,
        notified := (processRow ok st p).notified ++
          [rowKey (stepCarry s (processRow ok st p).carry) s],
        newlyNotified := (processRow ok st p).newlyNotified ++
          [rowKey (stepCarry s (processRow ok st p).carry) s],
        sent := (processRow ok st p).sent ++
          [rowNotif (stepCarry s (processRow ok st p).carry) s],
        failed := (processRow ok st p).failed } :=
    processRow_send_ok ok (processRow ok st p) s hsp
      (by rw [hcar1, hk2, hn1]; exact hkey)
      (by rw [hcar1]; exact hoks)
  have hrc : rowCompany (stepCarry s (stepCarry p st.carry)) s = sCompany p := by
    unfold rowCompany
    rw [hc2]
    simp [hssub, prevTruthy, hc1prev, hpe]
  refine ⟨?_, ?_, ?_⟩
  · show (processRow ok (processRow ok st p) s).sent =
      st.sent ++ [rowNotif (stepCarry s (stepCarry p st.carry)) s]
    rw [h2]
    show (processRow ok st p).sent ++
        [rowNotif (stepCarry s (processRow ok st p).carry) s] =
      st.sent ++ [rowNotif (stepCarry s (stepCarry p st.carry)) s]
    rw [hs1, hcar1]
  · have hfield : (rowNotif (stepCarry s (stepCarry p st.carry)) s).company =
        (if (rowCompany (stepCarry s (stepCarry p st.carry)) s).isEmpty then emDash
         else rowCompany (stepCarry s (stepCarry p st.carry)) s) := rfl
    rw [hfield, hrc, hpe]
    simp
  · have hfield : (rowNotif (stepCarry s (stepCarry p st.carry)) s).url =
        rowLink (stepCarry s (stepCarry p st.carry)) s := rfl
    rw [hfield, hrl2]

theorem c1_subrow_inheritance_witness :
    (runRows failPrimary (initState []) [pWit, sWit]).sent =
      (initState []).sent ++
        [rowNotif (stepCarry sWit (stepCarry pWit (initState []).carry)) sWit] ∧
    (rowNotif (stepCarry sWit (stepCarry pWit (initState []).carry)) sWit).company =
      sCompany pWit ∧
    (rowNotif (stepCarry sWit (stepCarry pWit (initState []).carry)) sWit).url =
      some (cs "https://x.co/w") :=
  c1_subrow_inheritance_amended failPrimary (initState []) pWit sWit (cs "https://x.co/w")
    (by decide) (by decide) (by decide) (by decide) (by decide) (by decide) (by decide)
    (by decide) (by decide) (by decide) (by decide)
